import Mathlib

/-!
Shallow embedding of the fuzzy product-matching engine of the invoice-agent
repository: `invoice_agent/services/product_service.py` together with the
record types of `invoice_agent/models/product.py`.

Modelling choices:
* Strings are Lean `String`s (lists of unicode characters), matching Python
  `str` for the operations used by the code (trim, whitespace split,
  character comparison, byte-for-byte equality).
* Similarity scores are rationals (`ℚ`), standing for the exact values of
  the Python computation `fuzz.xxx(...) / 100.0`; the comparisons and the
  ranking performed by the code are representation-independent.
* The file system is an `Option (List (List String))`: `none` when
  `products_list.csv` does not exist, otherwise the parsed CSV rows
  (header row first, each row a list of cell strings).
* Python dicts are insertion-ordered association lists.
-/

/-- Whitespace characters of Python `str.strip()` and `str.split()`
(the ASCII whitespace set; queries and catalog names in this development
only use these). -/
def pyIsSpace (c : Char) : Bool :=
  c = ' ' || c = '\t' || c = '\n' || c = '\r' || c = Char.ofNat 11 || c = Char.ofNat 12

/-- Python `str.strip()` on a character list. -/
def pyStripL (s : List Char) : List Char :=
  ((s.dropWhile pyIsSpace).reverse.dropWhile pyIsSpace).reverse

/-- Python `str.strip()`. -/
def pyStrip (s : String) : String :=
  ⟨pyStripL s.data⟩

/-- Worker for Python `str.split()` (no argument): `cur` is the current token
accumulated in reverse. Runs of whitespace separate tokens; empty tokens are
never produced. -/
def pySplitGo : List Char → List Char → List (List Char)
  | cur, [] => if cur.isEmpty then [] else [cur.reverse]
  | cur, c :: cs =>
    if pyIsSpace c then
      (if cur.isEmpty then pySplitGo [] cs else cur.reverse :: pySplitGo [] cs)
    else pySplitGo (c :: cur) cs

/-- Python `str.split()` (split on whitespace runs, dropping empties). -/
def pySplitL (s : List Char) : List (List Char) :=
  pySplitGo [] s

/-- Length of a longest common subsequence of two character lists.  The first
argument is fuel bounding the recursion depth; since every recursive call
removes at least one character from the combined input and spends exactly one
unit of fuel, starting the fuel at the combined length (see `lcsLen`) the
zero-fuel branch is never reached; the fuel only makes the recursion
structural, hence kernel-computable. -/
def lcsAux : Nat → List Char → List Char → Nat
  | _, [], _ => 0
  | _, _ :: _, [] => 0
  | 0, _ :: _, _ :: _ => 0
  | fuel + 1, a :: as, b :: bs =>
    if a = b then lcsAux fuel as bs + 1
    else max (lcsAux fuel (a :: as) bs) (lcsAux fuel as (b :: bs))

/-- Length of a longest common subsequence of two character lists. -/
def lcsLen (x y : List Char) : Nat :=
  lcsAux (x.length + y.length) x y

/-- Embedding of `fuzz.ratio(x, y) / 100.0`, the normalized indel similarity
on the 0–1 scale.  The indel distance between `x` and `y` is
`|x| + |y| - 2·lcs(x,y)`, so `fuzz.ratio` returns `100·2·lcs/(|x|+|y|)` and
the division by 100 performed by `check_product` leaves `2·lcs/(|x|+|y|)`,
which is built here directly with `mkRat` (the 0–100 intermediate value is
skipped because this toolchain's rational arithmetic is irreducible, which
would block concrete evaluation; the scaling is exact).  Two empty strings
score 1. -/
def ratioQ (x y : List Char) : ℚ :=
  if x.length + y.length = 0 then 1
  else mkRat (2 * (lcsLen x y : Int)) (x.length + y.length)

/-- All alignment windows `hay[max(0,i) : i+n]` for `i ∈ [-(n-1), |hay|-1]`
scanned by `rapidfuzz.fuzz.partial_ratio` when the needle has length `n`
(windows clipped at both edges).  Meaningful for `1 ≤ n ≤ |hay|`. -/
def alignWindows (n : Nat) (hay : List Char) : List (List Char) :=
  ((List.range (n - 1)).map (fun k => hay.take (k + 1)))
    ++ ((List.range (hay.length - n + 1)).map (fun i => (hay.drop i).take n))
    ++ ((List.range (n - 1)).map (fun k => hay.drop (hay.length - (n - 1) + k)))

/-- Python's builtin `max` on two numbers: the second argument replaces the
first exactly when it is strictly greater (equivalent to `max` on `ℚ`, but
kernel-computable in this toolchain). -/
def pymax (a b : ℚ) : ℚ := if a < b then b else a

/-- Best `ratioQ` of the needle against any of the given windows. -/
def bestRatio (needle : List Char) (ws : List (List Char)) : ℚ :=
  ws.foldl (fun acc w => pymax acc (ratioQ needle w)) 0

/-- Embedding of `fuzz.partial_ratio(x, y) / 100.0`: the best `ratio` over
all alignments of the shorter string against substrings of the longer one
(dividing by 100 commutes with taking the best, so the 0–1 scale is used
throughout); when the lengths are equal rapidfuzz retries with the roles
swapped, so both directions are taken. -/
def partRatioQ (x y : List Char) : ℚ :=
  if x.length = 0 && y.length = 0 then 1
  else if x.length = 0 || y.length = 0 then 0
  else if x.length < y.length then bestRatio x (alignWindows x.length y)
  else if y.length < x.length then bestRatio y (alignWindows y.length x)
  else pymax (bestRatio x (alignWindows x.length y)) (bestRatio y (alignWindows y.length x))

/-- Lexicographic (code-point) strict order on character lists, as Python
compares strings. -/
def strLtL : List Char → List Char → Bool
  | [], [] => false
  | [], _ :: _ => true
  | _ :: _, [] => false
  | a :: as, b :: bs => if a < b then true else if b < a then false else strLtL as bs

/-- Insert a token into an ascending token list (worker of `sortToks`). -/
def insertTok (t : List Char) : List (List Char) → List (List Char)
  | [] => [t]
  | u :: us => if strLtL t u then t :: u :: us else u :: insertTok t us

/-- Python `sorted(tokens)`: the tokens in ascending lexicographic order
(duplicate tokens are identical strings, so any stable algorithm gives the
same list). -/
def sortToks : List (List Char) → List (List Char)
  | [] => []
  | t :: ts => insertTok t (sortToks ts)

/-- Python `" ".join(tokens)`. -/
def joinSpace : List (List Char) → List Char
  | [] => []
  | [t] => t
  | t :: ts => t ++ ' ' :: joinSpace ts

/-- Embedding of `fuzz.token_sort_ratio(x, y) / 100.0`: `ratio` of the
whitespace-token-sorted, space-rejoined forms, on the 0–1 scale. -/
def tokenSortRatioQ (x y : List Char) : ℚ :=
  ratioQ (joinSpace (sortToks (pySplitL x))) (joinSpace (sortToks (pySplitL y)))

/-- Line 141 of `product_service.py`: `fuzz.ratio(...) / 100.0`. -/
def ratio_score (q name : String) : ℚ := ratioQ q.data name.data

/-- Line 142 of `product_service.py`: the partial-ratio score divided by 100. -/
def part_ratio_score (q name : String) : ℚ := partRatioQ q.data name.data

/-- Line 143 of `product_service.py`: `fuzz.token_sort_ratio(...) / 100.0`. -/
def token_sort_ratio_score (q name : String) : ℚ := tokenSortRatioQ q.data name.data

/-- Line 146 of `product_service.py`: the final similarity is
`max(ratio_score, partial_ratio_score, token_sort_ratio_score)`. -/
def similarity (q name : String) : ℚ :=
  pymax (pymax (ratio_score q name) (part_ratio_score q name)) (token_sort_ratio_score q name)

/-- Record type `Product` of `invoice_agent/models/product.py` (pydantic
model; `price` defaults to `0.0`). -/
structure Product where
  product_id : String
  name : String
  unit : String
  currency : String
  price : ℚ := 0
deriving DecidableEq

/-- Record type `ProductMatchResult` of `invoice_agent/models/product.py`
(pydantic model; `price` defaults to `0.0`). -/
structure ProductMatchResult where
  product_id : String
  name : String
  unit : String
  currency : String
  price : ℚ := 0
  match_score : ℚ
  original_input : String
deriving DecidableEq

/-- The mutable fields of class `ProductService` (`product_service.py`,
`__init__`, lines 15–22; the file path is fixed and lives outside the
model). -/
structure ProductService where
  products : List Product
  products_dict : List (String × Product)
  products_name_dict : List (String × Product)
  products_loaded : Bool
deriving DecidableEq

/-- The state built by `ProductService.__init__`. -/
def initialService : ProductService :=
  { products := [], products_dict := [], products_name_dict := [], products_loaded := false }

/-- Python `d[k] = v` on an insertion-ordered dict: an existing key keeps its
position and gets the new value, a new key is appended. -/
def dictInsert (d : List (String × Product)) (k : String) (v : Product) :
    List (String × Product) :=
  if d.any (fun e => e.1 = k) then d.map (fun e => if e.1 = k then (k, v) else e)
  else d ++ [(k, v)]

/-- Python `k in d` combined with `d[k]` on an insertion-ordered dict. -/
def dictGet (d : List (String × Product)) (k : String) : Option Product :=
  (d.find? (fun e => e.1 = k)).map (fun e => e.2)

/-- Python `needle in hay` on strings: substring containment. -/
def strContains (hay needle : String) : Bool :=
  (List.range (hay.data.length + 1)).any
    (fun i => (hay.data.drop i).take needle.data.length = needle.data)

/-- Line 50 of `product_service.py`: the header row is rejected when it has
fewer than 4 columns or its first two cells do not contain the labels
"品號" (product id) and "品名" (product name). -/
def headerBad (headers : List String) : Bool :=
  headers.length < 4
    || !strContains (headers.getD 0 "") "品號"
    || !strContains (headers.getD 1 "") "品名"

/-- Embedding of `ProductService.load_products` (lines 24–74).  The file
system is passed as `Option (List (List String))`: `none` when the catalog
file does not exist, otherwise the parsed CSV rows.  Returns the Python
boolean result together with the service state after the call.  An empty
rows list corresponds to `next(reader)` raising `StopIteration`, which the
`except` clause turns into `False`. -/
def loadProducts (st : ProductService) (file : Option (List (List String))) :
    Bool × ProductService :=
  match file with
  | none => (false, st)
  | some rows =>
    -- lines 38–41: the catalog is cleared before the header is read
    let st1 : ProductService :=
      { st with products := [], products_dict := [], products_name_dict := [] }
    match rows with
    | [] => (false, st1)
    | headers :: dataRows =>
      -- line 50: header must have ≥ 4 columns whose first two contain the labels
      if headerBad headers then
        (false, st1)
      else
        -- lines 55–66: rows with ≥ 4 cells become products, shorter rows are skipped
        let st2 := dataRows.foldl (fun acc row =>
          match row with
          | c0 :: c1 :: c2 :: c3 :: _ =>
            let product : Product :=
              { product_id := c0, name := c1, unit := c2, currency := c3 }
            { acc with
              products := acc.products ++ [product],
              products_dict := dictInsert acc.products_dict product.product_id product,
              products_name_dict := dictInsert acc.products_name_dict product.name product }
          | _ => acc) st1
        (true, { st2 with products_loaded := true })

/-- The `ProductMatchResult` built at lines 119–128 and 161–170 of
`product_service.py`: `price` is not passed, so it stays at the pydantic
default `0.0`. -/
def mkResult (p : Product) (score : ℚ) (original : String) : ProductMatchResult :=
  { product_id := p.product_id, name := p.name, unit := p.unit, currency := p.currency,
    match_score := score, original_input := original }

/-- Lines 136–150 of `check_product`: the `(product, similarity)` pairs, in
catalog order, that survive the inclusive `similarity >= threshold` test. -/
def matchScores (normalized : String) (threshold : ℚ) (products : List Product) :
    List (Product × ℚ) :=
  (products.map (fun p => (p, similarity normalized p.name))).filter
    (fun x => threshold ≤ x.2)

/-- Line 153 of `check_product`:
`match_scores.sort(key=lambda x: x[1], reverse=True)` — Python's sort is
stable, so this is the stable descending sort on the score, realized by
Mathlib's (stable) insertion sort. -/
def sortScores (l : List (Product × ℚ)) : List (Product × ℚ) :=
  l.insertionSort (fun a b => b.2 ≤ a.2)

/-- Embedding of `ProductService.check_product` (lines 88–172).
`max_results` is a `Nat` (the spec constrains it to ≥ 1, and Python's
`list[:n]` agrees with `List.take n` for `n ≥ 0`); `threshold` is a `ℚ`.
The lazy-load step (lines 102–103) is a no-op on a loaded service and is not
part of the model: the function is the body from line 105 on, acting on the
given state's catalog. -/
def checkProduct (st : ProductService) (product_name : String) (max_results : Nat)
    (threshold : ℚ) : Bool × List ProductMatchResult :=
  -- lines 106–107: `if not product_name or not product_name.strip()`
  if product_name = "" ∨ pyStrip product_name = "" then (false, [])
  else
    let normalized_name := pyStrip product_name
    match dictGet st.products_name_dict normalized_name with
    | some product =>
      -- lines 117–133: exact-match fast path
      let first := mkResult product 1 product_name
      if max_results = 1 then (true, [first])
      else
        -- lines 156–170 with `exact_match` true: slice, skip the query name, convert
        let ranked := ((sortScores (matchScores normalized_name threshold st.products)).take
            max_results).filter (fun x => decide (x.1.name ≠ normalized_name))
        (true, first :: ranked.map (fun x => mkResult x.1 x.2 product_name))
    | none =>
      -- lines 156–170 with `exact_match` false: nothing is skipped
      let ranked := (sortScores (matchScores normalized_name threshold st.products)).take
          max_results
      (false, ranked.map (fun x => mkResult x.1 x.2 product_name))

/-! ### Basic properties of the similarity scorer -/

theorem lcsAux_le_left : ∀ (fuel : Nat) (x y : List Char), lcsAux fuel x y ≤ x.length := by
  intro fuel
  induction fuel with
  | zero => intro x y; cases x <;> cases y <;> simp [lcsAux]
  | succ n ih =>
    intro x y
    cases x with
    | nil => simp [lcsAux]
    | cons a as =>
      cases y with
      | nil => simp [lcsAux]
      | cons b bs =>
        simp only [lcsAux, List.length_cons]
        split
        · have := ih as bs; omega
        · have h1 := ih (a :: as) bs
          have h2 := ih as (b :: bs)
          simp only [List.length_cons] at h1
          omega

theorem lcsAux_le_right : ∀ (fuel : Nat) (x y : List Char), lcsAux fuel x y ≤ y.length := by
  intro fuel
  induction fuel with
  | zero => intro x y; cases x <;> cases y <;> simp [lcsAux]
  | succ n ih =>
    intro x y
    cases x with
    | nil => simp [lcsAux]
    | cons a as =>
      cases y with
      | nil => simp [lcsAux]
      | cons b bs =>
        simp only [lcsAux, List.length_cons]
        split
        · have := ih as bs; omega
        · have h1 := ih (a :: as) bs
          have h2 := ih as (b :: bs)
          simp only [List.length_cons] at h2
          omega

theorem lcsLen_le_left (x y : List Char) : lcsLen x y ≤ x.length :=
  lcsAux_le_left _ x y

theorem lcsLen_le_right (x y : List Char) : lcsLen x y ≤ y.length :=
  lcsAux_le_right _ x y

theorem ratioQ_nonneg (x y : List Char) : 0 ≤ ratioQ x y := by
  unfold ratioQ
  split
  · norm_num
  · rw [Rat.mkRat_eq_div]
    positivity

theorem ratioQ_le_one (x y : List Char) : ratioQ x y ≤ 1 := by
  unfold ratioQ
  split
  · norm_num
  · rename_i h
    rw [Rat.mkRat_eq_div]
    rw [div_le_one (by exact_mod_cast Nat.pos_of_ne_zero h)]
    have h1 := lcsLen_le_left x y
    have h2 := lcsLen_le_right x y
    push_cast
    have : (lcsLen x y : ℚ) + (lcsLen x y : ℚ) ≤ (x.length : ℚ) + (y.length : ℚ) := by
      have hx : (lcsLen x y : ℚ) ≤ (x.length : ℚ) := by exact_mod_cast h1
      have hy : (lcsLen x y : ℚ) ≤ (y.length : ℚ) := by exact_mod_cast h2
      linarith
    linarith

theorem pymax_eq_max (a b : ℚ) : pymax a b = max a b := by
  unfold pymax
  split
  · exact (max_eq_right (le_of_lt (by assumption))).symm
  · exact (max_eq_left (not_lt.mp (by assumption))).symm

theorem bestRatio_nonneg (needle : List Char) (ws : List (List Char)) :
    0 ≤ bestRatio needle ws := by
  unfold bestRatio
  suffices h : ∀ (l : List (List Char)) (acc : ℚ), 0 ≤ acc →
      0 ≤ l.foldl (fun acc w => pymax acc (ratioQ needle w)) acc from
    h ws 0 le_rfl
  intro l
  induction l with
  | nil => intro acc h; simpa using h
  | cons w l ih =>
    intro acc h
    simp only [List.foldl_cons]
    exact ih _ (by rw [pymax_eq_max]; exact le_max_of_le_left h)

theorem bestRatio_le_one (needle : List Char) (ws : List (List Char)) :
    bestRatio needle ws ≤ 1 := by
  unfold bestRatio
  suffices h : ∀ (l : List (List Char)) (acc : ℚ), acc ≤ 1 →
      l.foldl (fun acc w => pymax acc (ratioQ needle w)) acc ≤ 1 from
    h ws 0 (by norm_num)
  intro l
  induction l with
  | nil => intro acc h; simpa using h
  | cons w l ih =>
    intro acc h
    simp only [List.foldl_cons]
    exact ih _ (by rw [pymax_eq_max]; exact max_le h (ratioQ_le_one _ _))

theorem partRatioQ_nonneg (x y : List Char) : 0 ≤ partRatioQ x y := by
  unfold partRatioQ
  split
  · norm_num
  split
  · norm_num
  split
  · exact bestRatio_nonneg _ _
  split
  · exact bestRatio_nonneg _ _
  · rw [pymax_eq_max]
    exact le_max_of_le_left (bestRatio_nonneg _ _)

theorem partRatioQ_le_one (x y : List Char) : partRatioQ x y ≤ 1 := by
  unfold partRatioQ
  split
  · norm_num
  split
  · norm_num
  split
  · exact bestRatio_le_one _ _
  split
  · exact bestRatio_le_one _ _
  · rw [pymax_eq_max]
    exact max_le (bestRatio_le_one _ _) (bestRatio_le_one _ _)

theorem tokenSortRatioQ_nonneg (x y : List Char) : 0 ≤ tokenSortRatioQ x y :=
  ratioQ_nonneg _ _

theorem tokenSortRatioQ_le_one (x y : List Char) : tokenSortRatioQ x y ≤ 1 :=
  ratioQ_le_one _ _

theorem similarity_nonneg (q c : String) : 0 ≤ similarity q c := by
  unfold similarity
  rw [pymax_eq_max, pymax_eq_max]
  exact le_max_of_le_left (le_max_of_le_left (ratioQ_nonneg _ _))

theorem similarity_le_one (q c : String) : similarity q c ≤ 1 := by
  unfold similarity
  rw [pymax_eq_max, pymax_eq_max]
  exact max_le (max_le (ratioQ_le_one _ _) (partRatioQ_le_one _ _)) (tokenSortRatioQ_le_one _ _)

/-! ### Properties of the candidate stage and the sort -/

instance : IsTotal (Product × ℚ) (fun a b => b.2 ≤ a.2) :=
  ⟨fun a b => le_total b.2 a.2⟩

instance : IsTrans (Product × ℚ) (fun a b => b.2 ≤ a.2) :=
  ⟨fun _ _ _ h1 h2 => le_trans h2 h1⟩

theorem sortScores_pairwise (l : List (Product × ℚ)) :
    (sortScores l).Pairwise (fun a b => b.2 ≤ a.2) :=
  List.sorted_insertionSort _ l

theorem sortScores_perm (l : List (Product × ℚ)) : List.Perm (sortScores l) l :=
  List.perm_insertionSort _ l

theorem mem_matchScores {x : Product × ℚ} {n : String} {t : ℚ} {ps : List Product}
    (hx : x ∈ matchScores n t ps) :
    x.1 ∈ ps ∧ x.2 = similarity n x.1.name ∧ t ≤ x.2 := by
  unfold matchScores at hx
  have h1 := List.mem_filter.mp hx
  obtain ⟨p, hp, rfl⟩ := List.mem_map.mp h1.1
  exact ⟨hp, rfl, by simpa using h1.2⟩

theorem checkProduct_empty (st : ProductService) (q : String) (mr : Nat) (t : ℚ)
    (hq : q = "" ∨ pyStrip q = "") : checkProduct st q mr t = (false, []) := by
  unfold checkProduct
  rw [if_pos hq]

theorem checkProduct_none (st : ProductService) (q : String) (mr : Nat) (t : ℚ)
    (hq : ¬(q = "" ∨ pyStrip q = ""))
    (hd : dictGet st.products_name_dict (pyStrip q) = none) :
    checkProduct st q mr t =
      (false, ((sortScores (matchScores (pyStrip q) t st.products)).take mr).map
          (fun x => mkResult x.1 x.2 q)) := by
  unfold checkProduct
  rw [if_neg hq]
  simp only [hd]

theorem checkProduct_some_one (st : ProductService) (q : String) (t : ℚ) (p : Product)
    (hq : ¬(q = "" ∨ pyStrip q = ""))
    (hd : dictGet st.products_name_dict (pyStrip q) = some p) :
    checkProduct st q 1 t = (true, [mkResult p 1 q]) := by
  unfold checkProduct
  rw [if_neg hq]
  simp [hd]

theorem checkProduct_some (st : ProductService) (q : String) (mr : Nat) (t : ℚ) (p : Product)
    (hq : ¬(q = "" ∨ pyStrip q = ""))
    (hd : dictGet st.products_name_dict (pyStrip q) = some p) (hmr : mr ≠ 1) :
    checkProduct st q mr t =
      (true, mkResult p 1 q ::
        (((sortScores (matchScores (pyStrip q) t st.products)).take mr).filter
          (fun x => decide (x.1.name ≠ pyStrip q))).map (fun x => mkResult x.1 x.2 q)) := by
  unfold checkProduct
  rw [if_neg hq]
  simp only [hd, if_neg hmr]

/-- The name index built by `load_products` maps each key to a product whose
`name` field is that key (line 66: `products_name_dict[product.name] = product`). -/
def NameDictOk (st : ProductService) : Prop :=
  ∀ e ∈ st.products_name_dict, e.2.name = e.1

theorem NameDictOk.get {st : ProductService} {k : String} {p : Product}
    (h : NameDictOk st) (hk : dictGet st.products_name_dict k = some p) : p.name = k := by
  unfold dictGet at hk
  obtain ⟨e, he, rfl⟩ := Option.map_eq_some'.mp hk
  have hmem := List.mem_of_find?_eq_some he
  have hpred := List.find?_some he
  have : e.1 = k := by simpa using hpred
  rw [h e hmem, this]

theorem mem_rankedTail {x : Product × ℚ} {n : String} {t : ℚ} {ps : List Product} {mr : Nat}
    {pred : Product × ℚ → Bool}
    (hx : x ∈ ((sortScores (matchScores n t ps)).take mr).filter pred) :
    x.1 ∈ ps ∧ x.2 = similarity n x.1.name ∧ t ≤ x.2 := by
  have h1 : x ∈ (sortScores (matchScores n t ps)).take mr := List.mem_of_mem_filter hx
  have h2 : x ∈ sortScores (matchScores n t ps) := List.take_subset _ _ h1
  exact mem_matchScores ((sortScores_perm _).mem_iff.mp h2)

/-! ### Concrete states used by the closed evaluations -/

/-- A valid catalog file with three products: two distinct products share the
name "b a" (both of which the token-sort measure scores 1 against the query
"a b"), and the third is named "a b" itself. -/
def fileC1 : List (List String) :=
  [["品號", "品名", "單位", "幣別"],
   ["1", "b a", "u", "c"],
   ["2", "b a", "u", "c"],
   ["3", "a b", "u", "c"]]

/-- The service state after successfully loading `fileC1`. -/
def stC1 : ProductService := (loadProducts initialService (some fileC1)).2

/-- A valid single-product catalog file. -/
def fileGood : List (List String) :=
  [["品號", "品名", "單位", "幣別"], ["1", "x", "u", "c"]]

/-- The service state after successfully loading `fileGood`. -/
def stGood : ProductService := (loadProducts initialService (some fileGood)).2

/-- The single product of `fileGood`. -/
def pX : Product := ⟨"1", "x", "u", "c", 0⟩

/-- A product named "ab" (used by the threshold-boundary evaluation). -/
def pAB : Product := ⟨"1", "ab", "u", "c", 0⟩

/-- A product named "zz", dissimilar to the query "ax". -/
def pZZ : Product := ⟨"2", "zz", "u", "c", 0⟩

/-! ### Claims -/

/-- C1: the spec claims `len(results) <= max_results` always.  The code
violates this bound: on the catalog of `fileC1` (an exact match "a b" plus
two products named "b a" that also score 1.0 because the token-sort measure
is order-insensitive), `check_product("a b", max_results=2, threshold=0.4)`
returns `exact_match = true` together with THREE results: the exact-match
entry prepended at lines 119–128 plus the full two-element slice
`match_scores[:2]`, neither element of which is skipped by the
name-equality test at line 158 because the exact-match product sorts after
the two ties.  This contradicts the code's own documentation of
`max_results` ("返回最大的結果數量", line 94). -/
theorem check_product_exceeds_max_results :
    (checkProduct stC1 "a b" 2 (mkRat 2 5)).1 = true
    ∧ ((checkProduct stC1 "a b" 2 (mkRat 2 5)).2).length = 3 := by decide

/-- C7: a query that is empty, or whitespace-only (so that Python
`str.strip()` leaves the empty string), makes `check_product` return
`(False, [])` immediately, for every state, `max_results` and threshold. -/
theorem check_product_empty_query (st : ProductService) (q : String) (mr : Nat) (t : ℚ)
    (hq : pyStrip q = "") : checkProduct st q mr t = (false, []) :=
  checkProduct_empty st q mr t (Or.inr hq)

/-- Witness for C7 at the whitespace-only query "  ". -/
theorem check_product_empty_query_witness :
    checkProduct stC1 "  " 5 (mkRat 2 5) = (false, []) :=
  check_product_empty_query stC1 "  " 5 (mkRat 2 5) (by decide)

/-- C10: every result returned by `check_product` — the exact-match entry and
the ranked candidates alike — carries `original_input` equal to the raw query
string exactly as passed in (lines 126 and 168 store `product_name`, not
`normalized_name`). -/
theorem check_product_original_input (st : ProductService) (q : String) (mr : Nat) (t : ℚ)
    (r : ProductMatchResult) (hr : r ∈ (checkProduct st q mr t).2) :
    r.original_input = q := by
  by_cases hq : q = "" ∨ pyStrip q = ""
  · rw [checkProduct_empty st q mr t hq] at hr
    simp at hr
  · cases hd : dictGet st.products_name_dict (pyStrip q) with
    | none =>
      rw [checkProduct_none st q mr t hq hd] at hr
      obtain ⟨x, _, rfl⟩ := List.mem_map.mp hr
      rfl
    | some p =>
      by_cases hmr : mr = 1
      · subst hmr
        rw [checkProduct_some_one st q t p hq hd] at hr
        simp only [List.mem_singleton] at hr
        subst hr
        rfl
      · rw [checkProduct_some st q mr t p hq hd hmr] at hr
        rcases List.mem_cons.mp hr with rfl | hr'
        · rfl
        · obtain ⟨x, _, rfl⟩ := List.mem_map.mp hr'
          rfl

/-- Witness for C10: the query " x " (with surrounding whitespace) matches
the catalog entry "x" exactly after trimming, and the returned result's
`original_input` is the untrimmed " x ". -/
theorem check_product_original_input_witness :
    ((checkProduct stGood " x " 1 (mkRat 2 5)).2.getD 0 (mkResult pX 1 "?")).original_input
      = " x " :=
  check_product_original_input stGood " x " 1 (mkRat 2 5) _ (by decide)

/-- C3: when the trimmed query is byte-identical to a catalog entry's name
(i.e. line 117's name-index lookup hits), `check_product` reports
`exact_match = true`, the first result is that entry with score exactly 1.0
(and the raw query as `original_input`), and when `max_results = 1` the
result list is exactly that single entry. -/
theorem check_product_exact_match (st : ProductService) (q : String) (mr : Nat) (t : ℚ)
    (p : Product) (hq : pyStrip q ≠ "")
    (hp : dictGet st.products_name_dict (pyStrip q) = some p) :
    (checkProduct st q mr t).1 = true
    ∧ (checkProduct st q mr t).2.head? = some (mkResult p 1 q)
    ∧ (mr = 1 → (checkProduct st q mr t).2 = [mkResult p 1 q]) := by
  have hq0 : ¬(q = "" ∨ pyStrip q = "") := by
    rintro (rfl | h)
    · exact hq rfl
    · exact hq h
  by_cases hmr : mr = 1
  · subst hmr
    rw [checkProduct_some_one st q t p hq0 hp]
    exact ⟨rfl, rfl, fun _ => rfl⟩
  · rw [checkProduct_some st q mr t p hq0 hp hmr]
    exact ⟨rfl, rfl, fun h => absurd h hmr⟩

/-- Witness for C3: the query " x " (nonempty after trimming) exactly matches
the sole entry of `stGood`; with `max_results = 1` the output is exactly the
singleton exact-match result scored 1. -/
theorem check_product_exact_match_witness :
    (checkProduct stGood " x " 1 (mkRat 2 5)).1 = true
    ∧ (checkProduct stGood " x " 1 (mkRat 2 5)).2 = [mkResult pX 1 " x "] :=
  ⟨(check_product_exact_match stGood " x " 1 (mkRat 2 5) pX (by decide) (by decide)).1,
   (check_product_exact_match stGood " x " 1 (mkRat 2 5) pX (by decide) (by decide)).2.2 rfl⟩

/-- C4: the threshold comparison at line 149 is inclusive — a catalog entry
whose similarity equals the threshold exactly is kept in the candidate list
`match_scores`, and one scoring strictly below the threshold never appears
in it. -/
theorem match_scores_threshold (q : String) (t : ℚ) (products : List Product) (p : Product)
    (hp : p ∈ products) :
    (similarity q p.name = t → (p, t) ∈ matchScores q t products)
    ∧ (similarity q p.name < t → ∀ s : ℚ, (p, s) ∉ matchScores q t products) := by
  constructor
  · intro h
    unfold matchScores
    refine List.mem_filter.mpr ⟨?_, by simp⟩
    exact List.mem_map.mpr ⟨p, hp, by rw [h]⟩
  · intro h s hmem
    have h1 := mem_matchScores hmem
    simp only at h1
    rw [h1.2.1] at h1
    exact absurd (lt_of_le_of_lt h1.2.2 h) (lt_irrefl t)

/-- Witness for C4: against the query "ax" the entry "ab" scores exactly 2/3
(the best alignment window of the partial ratio), so with threshold 2/3 it is
kept; the entry "zz" scores 0 < 2/3 and is discarded. -/
theorem match_scores_threshold_witness :
    (pAB, mkRat 2 3) ∈ matchScores "ax" (mkRat 2 3) [pAB, pZZ]
    ∧ (pZZ, (0 : ℚ)) ∉ matchScores "ax" (mkRat 2 3) [pAB, pZZ] :=
  ⟨(match_scores_threshold "ax" (mkRat 2 3) [pAB, pZZ] pAB (by decide)).1 (by decide),
   (match_scores_threshold "ax" (mkRat 2 3) [pAB, pZZ] pZZ (by decide)).2 (by decide) 0⟩

/-- C9: the similarity score of lines 141–146 equals the maximum of the three
measures (full-string edit-distance ratio, substring-alignment ratio,
token-sort ratio), each of which lies in [0,1]; hence the score lies in
[0,1], and it is a pure function of its two inputs (deterministic, no side
effects). -/
theorem similarity_spec (q c : String) :
    similarity q c
        = max (max (ratio_score q c) (part_ratio_score q c)) (token_sort_ratio_score q c)
    ∧ (0 ≤ ratio_score q c ∧ ratio_score q c ≤ 1)
    ∧ (0 ≤ part_ratio_score q c ∧ part_ratio_score q c ≤ 1)
    ∧ (0 ≤ token_sort_ratio_score q c ∧ token_sort_ratio_score q c ≤ 1)
    ∧ (0 ≤ similarity q c ∧ similarity q c ≤ 1)
    ∧ (∀ q' c', q' = q → c' = c → similarity q' c' = similarity q c) := by
  refine ⟨?_, ⟨ratioQ_nonneg _ _, ratioQ_le_one _ _⟩,
    ⟨partRatioQ_nonneg _ _, partRatioQ_le_one _ _⟩,
    ⟨tokenSortRatioQ_nonneg _ _, tokenSortRatioQ_le_one _ _⟩,
    ⟨similarity_nonneg q c, similarity_le_one q c⟩, ?_⟩
  · unfold similarity
    rw [pymax_eq_max, pymax_eq_max]
  · intro q' c' hq hc
    rw [hq, hc]

/-- Witness for C9 at the concrete pair ("ax", "ab"): the bound holds and the
two-evaluation determinism clause is discharged at identical inputs. -/
theorem similarity_spec_witness :
    similarity "ax" "ab" ≤ 1 ∧ similarity "ax" "ab" = similarity "ax" "ab" :=
  ⟨(similarity_spec "ax" "ab").2.2.2.2.1.2,
   (similarity_spec "ax" "ab").2.2.2.2.2 "ax" "ab" rfl rfl⟩

/-- C6: when an exact match is found, the skip at lines 157–159 prevents the
exact-match entry from appearing again in the ranked tail: no tail element
carries the trimmed query as its name, and exactly one element of the whole
result list (the head) does.  The hypothesis `NameDictOk` records the
name-index invariant established by `load_products` (the value stored under a
name key carries that name). -/
theorem check_product_no_duplicate (st : ProductService) (q : String) (mr : Nat) (t : ℚ)
    (p : Product) (hst : NameDictOk st) (hq : pyStrip q ≠ "")
    (hp : dictGet st.products_name_dict (pyStrip q) = some p) :
    ((checkProduct st q mr t).2.countP (fun r => decide (r.name = pyStrip q))) = 1
    ∧ ∀ r ∈ (checkProduct st q mr t).2.tail, r.name ≠ pyStrip q := by
  have hq0 : ¬(q = "" ∨ pyStrip q = "") := by
    rintro (rfl | h)
    · exact hq rfl
    · exact hq h
  have hname : p.name = pyStrip q := hst.get hp
  by_cases hmr : mr = 1
  · subst hmr
    rw [checkProduct_some_one st q t p hq0 hp]
    refine ⟨?_, by simp⟩
    simp [List.countP_cons, mkResult, hname]
  · rw [checkProduct_some st q mr t p hq0 hp hmr]
    have htail : ∀ r ∈ (((sortScores (matchScores (pyStrip q) t st.products)).take mr).filter
        (fun x => decide (x.1.name ≠ pyStrip q))).map
          (fun x => mkResult x.1 x.2 q), r.name ≠ pyStrip q := by
      intro r hr
      obtain ⟨x, hx, rfl⟩ := List.mem_map.mp hr
      have hpred := List.of_mem_filter hx
      simpa [mkResult] using hpred
    refine ⟨?_, htail⟩
    rw [List.countP_cons]
    have h0 : List.countP (fun r => decide (r.name = pyStrip q))
        ((((sortScores (matchScores (pyStrip q) t st.products)).take mr).filter
          (fun x => decide (x.1.name ≠ pyStrip q))).map (fun x => mkResult x.1 x.2 q)) = 0 :=
      List.countP_eq_zero.mpr (fun r hr => by simpa using htail r hr)
    rw [h0]
    simp [mkResult, hname]

/-- Witness for C6: the duplicated-name catalog `stC1` queried with "a b"
(its exact match) returns a list in which exactly one element is named
"a b", and no tail element is. -/
theorem check_product_no_duplicate_witness :
    ((checkProduct stC1 "a b" 3 (mkRat 2 5)).2.countP
        (fun r => decide (r.name = pyStrip "a b"))) = 1 :=
  (check_product_no_duplicate stC1 "a b" 3 (mkRat 2 5) ⟨"3", "a b", "u", "c", 0⟩
    (by unfold NameDictOk; decide) (by decide) (by decide)).1

/-- C5: the result list of `check_product` is ordered by descending score —
the exact match (if any) comes first with score 1, and the ranked candidates
that follow are pairwise descending (line 153 sorts on the score,
`reverse=True`); moreover the sort is stable, so two candidates with equal
scores that appear in a given order in the candidate list `match_scores`
(which lists the catalog in first-seen order) appear in that same order in
the sorted list. -/
theorem check_product_ranking (st : ProductService) (q : String) (mr : Nat) (t : ℚ) :
    (checkProduct st q mr t).2.Pairwise
      (fun r1 r2 => r2.match_score ≤ r1.match_score)
    ∧ (∀ a b : Product × ℚ, a.2 = b.2 →
        [a, b].Sublist (matchScores (pyStrip q) t st.products) →
        [a, b].Sublist (sortScores (matchScores (pyStrip q) t st.products))) := by
  constructor
  · by_cases hq : q = "" ∨ pyStrip q = ""
    · rw [checkProduct_empty st q mr t hq]
      simp
    · cases hd : dictGet st.products_name_dict (pyStrip q) with
      | none =>
        rw [checkProduct_none st q mr t hq hd]
        refine List.pairwise_map.mpr ?_
        exact (List.Pairwise.sublist (List.take_sublist _ _) (sortScores_pairwise _)).imp
          (fun h => h)
      | some p =>
        by_cases hmr : mr = 1
        · subst hmr
          rw [checkProduct_some_one st q t p hq hd]
          simp
        · rw [checkProduct_some st q mr t p hq hd hmr]
          refine List.pairwise_cons.mpr ⟨?_, ?_⟩
          · intro r' hr'
            obtain ⟨x, hx, rfl⟩ := List.mem_map.mp hr'
            have hx' := mem_rankedTail hx
            show x.2 ≤ (1 : ℚ)
            rw [hx'.2.1]
            exact similarity_le_one _ _
          · refine List.pairwise_map.mpr ?_
            exact (List.Pairwise.sublist
              ((List.filter_sublist _).trans (List.take_sublist _ _))
              (sortScores_pairwise _)).imp (fun h => h)
  · intro a b hab hsub
    exact List.sublist_insertionSort (List.pairwise_pair.mpr hab.ge) hsub

/-- Witness for C5: in `stC1` the two products named "b a" tie at score 1
against the query "a b"; they appear in catalog order in `match_scores` and
the stable sort keeps that order. -/
theorem check_product_ranking_witness :
    [(⟨"1", "b a", "u", "c", 0⟩, (1 : ℚ)), (⟨"2", "b a", "u", "c", 0⟩, (1 : ℚ))].Sublist
      (sortScores (matchScores (pyStrip "a b") (mkRat 2 5) stC1.products)) :=
  (check_product_ranking stC1 "a b" 2 (mkRat 2 5)).2
    (⟨"1", "b a", "u", "c", 0⟩, 1) (⟨"2", "b a", "u", "c", 0⟩, 1) rfl (by decide)

/-- C2 counterexample: after a successful load (`stGood` holds one product),
a failed reload from a file whose header is bad returns `False` — but the
catalog was already cleared at lines 38–41, so the previously loaded
product list is gone, contradicting the claim that a failed load leaves the
previous catalog unchanged. -/
theorem load_failure_clears_catalog :
    (loadProducts stGood (some [["bad"]])).1 = false
    ∧ stGood.products ≠ []
    ∧ (loadProducts stGood (some [["bad"]])).2.products = [] := by decide



/-- C2 (amended): only the missing-file failure (line 34, before the catalog
is touched) leaves the service state unchanged; any failure after the file
was opened (empty file or malformed header) happens after the clearing at
lines 38–41, so the previously loaded catalog is left emptied, not intact. -/
theorem load_failure_effect (st : ProductService) (file : Option (List (List String))) :
    (file = none → loadProducts st file = (false, st))
    ∧ (∀ rows, file = some rows → (loadProducts st file).1 = false →
        (loadProducts st file).2.products = []
        ∧ (loadProducts st file).2.products_dict = []
        ∧ (loadProducts st file).2.products_name_dict = []) := by
  constructor
  · rintro rfl
    rfl
  · rintro rows rfl h
    cases rows with
    | nil => exact ⟨rfl, rfl, rfl⟩
    | cons headers dataRows =>
      by_cases hb : headerBad headers = true
      · refine ⟨?_, ?_, ?_⟩ <;> simp [loadProducts, hb]
      · simp [loadProducts, hb] at h

/-- Witness for C2's amended statement at the concrete bad-header reload. -/
theorem load_failure_effect_witness :
    (loadProducts stGood (some [["bad"]])).2.products = []
    ∧ (loadProducts stGood (some [["bad"]])).2.products_dict = []
    ∧ (loadProducts stGood (some [["bad"]])).2.products_name_dict = [] :=
  (load_failure_effect stGood (some [["bad"]])).2 [["bad"]] rfl (by decide)

/-- A file's rows pass the loader's validation when there is a header row
with at least 4 columns whose first two cells contain the expected id/name
labels (the conditions of line 50). -/
def headerOk (rows : List (List String)) : Prop :=
  ∃ headers rest, rows = headers :: rest
    ∧ 4 ≤ headers.length
    ∧ strContains (headers.getD 0 "") "品號" = true
    ∧ strContains (headers.getD 1 "") "品名" = true

theorem headerOk_cons (headers : List String) (dataRows : List (List String)) :
    headerOk (headers :: dataRows) ↔ headerBad headers = false := by
  constructor
  · rintro ⟨h', rest', heq, h4, hc0, hc1⟩
    injection heq with e1 e2
    subst e1
    unfold headerBad
    rw [hc0, hc1]
    simp only [Bool.not_true, Bool.or_false, decide_eq_false_iff_not]
    exact Nat.not_lt.mpr h4
  · intro hb
    have := hb
    simp only [headerBad, Bool.or_eq_false_iff, Bool.not_eq_false',
      decide_eq_false_iff_not, Nat.not_lt] at this
    exact ⟨headers, dataRows, rfl, this.1.1, this.1.2, this.2⟩

/-- C8: `load_products` reports failure (returns `False`, never raising to
the caller) exactly when the catalog file is missing, or its header row
fails the line-50 validation (fewer than 4 columns, or the first two header
cells lack the id/name labels; an absent header row — an empty file — is the
degenerate case of that validation); any file passing the validation loads
successfully. -/
theorem load_products_failure_iff (st : ProductService) (file : Option (List (List String))) :
    (loadProducts st file).1 = false ↔
      file = none ∨ ∃ rows, file = some rows ∧ ¬ headerOk rows := by
  cases file with
  | none => simp [loadProducts]
  | some rows =>
    cases rows with
    | nil =>
      constructor
      · intro _
        exact Or.inr ⟨[], rfl, by rintro ⟨h', r', heq, -⟩; exact List.noConfusion heq⟩
      · intro _
        rfl
    | cons headers dataRows =>
      have h1 : (loadProducts st (some (headers :: dataRows))).1 = false
          ↔ headerBad headers = true := by
        cases hb : headerBad headers
        · simp [loadProducts, hb]
        · simp [loadProducts, hb]
      rw [h1]
      constructor
      · intro hb
        refine Or.inr ⟨headers :: dataRows, rfl, fun hok => ?_⟩
        rw [headerOk_cons] at hok
        rw [hok] at hb
        exact Bool.noConfusion hb
      · rintro (hnone | ⟨rows', heq, hok⟩)
        · exact Option.noConfusion hnone
        · injection heq with e
          subst e
          cases hb : headerBad headers
          · exact absurd ((headerOk_cons _ _).mpr hb) hok
          · rfl
